import Mathlib

/-!
Shallow embedding of the ria-intel ETL pipeline
(src/src/riaintel/etl/etl_utils.py and src/scripts/build_gold.py)
together with proofs about its merge validator, key preparer,
period/firm reducers, gold builders and column normalizer.

Tables are modelled as association-list rows over string column names;
a cell value of `none` models a pandas missing value (NaN/None/NA/NaT).
Machine floats do not occur: pandas parses the all-string CSV input with
`pd.to_numeric`, which this model renders exactly as rationals.
String primitives are re-implemented over character lists so that every
definition evaluates on concrete inputs.
-/

/-- Association-list lookup by string key, first match wins
(models both row-cell access and dict lookup). -/
def lookupStr {β : Type} : List (String × β) → String → Option β
  | [], _ => none
  | p :: ps, c => if p.1 = c then some p.2 else lookupStr ps c

/-- Lexicographic strict order on character lists by code point
(the comparison Python and pandas use on strings). -/
def charListLt : List Char → List Char → Bool
  | [], [] => false
  | [], _ :: _ => true
  | _ :: _, [] => false
  | a :: as, b :: bs => a < b || (a = b && charListLt as bs)

/-- Non-strict string order by code point. -/
def strLeB (a b : String) : Bool :=
  ! charListLt b.toList a.toList

/-- Python `s.startswith(pre)`. -/
def startsWithB (s pre : String) : Bool :=
  pre.toList.isPrefixOf s.toList

/-- Split a character list at every occurrence of a separator character. -/
def splitOnChar (sep : Char) : List Char → List (List Char)
  | [] => [[]]
  | c :: cs =>
    if c = sep then [] :: splitOnChar sep cs
    else
      match splitOnChar sep cs with
      | [] => [[c]]
      | h :: t => (c :: h) :: t

/-- Python `str.strip()` on a character list. -/
def trimChars (l : List Char) : List Char :=
  ((l.dropWhile Char.isWhitespace).reverse.dropWhile Char.isWhitespace).reverse

/-- Python `str.strip()`. -/
def pyStrip (s : String) : String :=
  String.mk (trimChars s.toList)

/-- Python `str.upper()` (ASCII payload; `Char.toUpper` is the identity
beyond ASCII, as is `upper` on the values this pipeline inspects). -/
def pyUpper (s : String) : String :=
  String.mk (s.toList.map Char.toUpper)

/-- Digits to a natural number, most significant first. -/
def natOfDigits (l : List Char) : Nat :=
  l.foldl (fun acc c => acc * 10 + (c.toNat - 48)) 0

/-- Unsigned decimal parse: digits, optionally a point and further digits,
at least one digit in total (the tail of pandas numeric parsing); the value
is the digit string over the fractional power of ten. -/
def parseUnsignedDecimal (l : List Char) : Option Rat :=
  let intPart := l.takeWhile Char.isDigit
  let rest := l.dropWhile Char.isDigit
  match rest with
  | [] => if intPart.isEmpty then none else some (Rat.divInt (natOfDigits intPart) 1)
  | c :: frac =>
    if c = '.' ∧ frac.all Char.isDigit ∧ ¬ (intPart.isEmpty ∧ frac.isEmpty) then
      some (Rat.divInt (natOfDigits (intPart ++ frac)) ((10 : Int) ^ frac.length))
    else none

/-- Model of `pd.to_numeric(x, errors="coerce")` on one string: strips
surrounding whitespace, reads an optional sign and a plain decimal literal;
anything else coerces to missing. (Exponent notation and other numeric
spellings do not occur in this dataset and are not modelled.) -/
def parseDecimal (s : String) : Option Rat :=
  match (pyStrip s).toList with
  | [] => none
  | c :: rest =>
    if c = '-' then (parseUnsignedDecimal rest).map (fun q => -q)
    else if c = '+' then parseUnsignedDecimal rest
    else parseUnsignedDecimal (c :: rest)

/-- Model of `pd.to_numeric(errors="coerce")` on an optional cell:
missing stays missing. -/
def toNumericVal (v : Option String) : Option Rat :=
  match v with
  | none => none
  | some s => parseDecimal s

/-- Days per month under the Gregorian leap rule. -/
def daysInMonth (y m : Nat) : Nat :=
  if m = 2 then
    if (y % 4 = 0 ∧ y % 100 ≠ 0) ∨ y % 400 = 0 then 29 else 28
  else if m = 4 ∨ m = 6 ∨ m = 9 ∨ m = 11 then 30 else 31

/-- Model of `pd.to_datetime(x, format="%Y%m%d", errors="coerce")` followed by
`.dt.normalize()` on one string: exactly eight digits forming a valid calendar
date, encoded as the natural number y * 10000 + m * 100 + d (an order-preserving
encoding of the date; the format carries no time of day, so `normalize` is the
identity). Anything else coerces to missing. -/
def parseDate8 (s : String) : Option Nat :=
  let cs := s.toList
  if cs.length = 8 ∧ cs.all Char.isDigit then
    let y := natOfDigits (cs.take 4)
    let m := natOfDigits ((cs.drop 4).take 2)
    let d := natOfDigits ((cs.drop 6).take 2)
    if 1 ≤ m ∧ m ≤ 12 ∧ 1 ≤ d ∧ d ≤ daysInMonth y m then
      some (y * 10000 + m * 100 + d)
    else none
  else none

/-- Same strict parse lifted to an optional cell. -/
def parseDate8Val (v : Option String) : Option Nat :=
  match v with
  | none => none
  | some s => parseDate8 s

/-- Model of the lenient `pd.to_datetime(x, errors="coerce")` used for
DATESUBMITTED (best-effort parse, invalid goes to missing, never fails):
accepts the strict 8-digit form or an ISO-like YYYY-MM-DD date, optionally
followed by a time of day; the encoding is order-preserving on the values the
pipeline compares, and only ever feeds the `date_submitted` tie-break. -/
def parseDateLenient (v : Option String) : Option Nat :=
  match v with
  | none => none
  | some s =>
    let t := (pyStrip s).toList
    match parseDate8 (String.mk t) with
    | some n => some (n * 1000000)
    | none =>
      let datePart := t.takeWhile (fun c => c ≠ ' ')
      match splitOnChar '-' datePart with
      | [ys, ms, ds] =>
        match parseDate8 (String.mk (ys ++ ms ++ ds)) with
        | some n =>
          let timePart := (t.dropWhile (fun c => c ≠ ' ')).filter Char.isDigit
          some (n * 1000000 + natOfDigits (timePart.take 6) % 1000000)
        | none => none
      | _ => none

/-- A raw table row: canonical column name to optionally-missing string cell. -/
abbrev RawRow := List (String × Option String)

/-- Cell access, `df[c]` on one row: an absent column and a missing value both
read as missing. -/
def RawRow.getVal (r : RawRow) (c : String) : Option String :=
  match lookupStr r c with
  | some v => v
  | none => none

/-- A pandas DataFrame of all-string columns. -/
structure DataFrame where
  cols : List String
  rows : List RawRow
deriving DecidableEq

/-- Blank test of `enforce_nonblank`: missing, or whitespace-only after strip. -/
def isBlankVal (v : Option String) : Bool :=
  match v with
  | none => true
  | some s => pyStrip s = ""

/-- Errors raised by the merge validator (`RuntimeError` in the source; the
spec's ValidationError / MergeIntegrityError taxonomy). `imperfect` carries the
three row counts L, R, M of the source's message. -/
inductive MergeError where
  | missingColumns (missing : List String)
  | blankColumn (col : String) (label : String)
  | imperfect (leftCount rightCount mergedCount : Nat)
deriving DecidableEq

/-- Renaming applied by `left.merge(right, on=on, suffixes=(sA, sB))` to one
side's column: columns shared by both inputs other than the join key get the
side's suffix. -/
def suffixRename (otherCols : List String) (onKey sfx c : String) : String :=
  if c ∈ otherCols ∧ c ≠ onKey then c ++ sfx else c

/-- One merged row: left cells (suffix-renamed) then the right cells other than
the join key (suffix-renamed). -/
def mergeRowPair (leftCols rightCols : List String) (onKey sA sB : String)
    (l r : RawRow) : RawRow :=
  l.map (fun p => (suffixRename rightCols onKey sA p.1, p.2)) ++
    (r.filter (fun p => p.1 ≠ onKey)).map
      (fun p => (suffixRename leftCols onKey sB p.1, p.2))

/-- Model of `left.merge(right, on=on, how="inner", suffixes=(sA, sB))`:
each left row pairs with every right row sharing its join-key value,
in left-major order. -/
def innerMerge (left right : DataFrame) (onKey sA sB : String) : DataFrame :=
  { cols :=
      left.cols.map (suffixRename right.cols onKey sA) ++
        (right.cols.filter (fun c => c ≠ onKey)).map (suffixRename left.cols onKey sB),
    rows :=
      left.rows.flatMap (fun l =>
        (right.rows.filter (fun r => RawRow.getVal r onKey = RawRow.getVal l onKey)).map
          (mergeRowPair left.cols right.cols onKey sA sB l)) }

/-- Row count of the underlying inner join (the M of the integrity check). -/
def mergedRowCount (left right : DataFrame) (onKey : String) : Nat :=
  (innerMerge left right onKey "_A" "_B").rows.length

/-- Embedding of `perfect_merge(left, right, on, how="inner", suffixes)` for a
single-string join key (the only form the pipeline uses): `require_keys` and
`enforce_nonblank` on both sides, the inner merge, then the 1:1 row-count
assertion. -/
def perfect_merge (left right : DataFrame) (onKey sA sB : String) :
    Except MergeError DataFrame :=
  if onKey ∉ left.cols then .error (.missingColumns [onKey])
  else if onKey ∉ right.cols then .error (.missingColumns [onKey])
  else if left.rows.any (fun r => isBlankVal (RawRow.getVal r onKey)) then
    .error (.blankColumn onKey "(left)")
  else if right.rows.any (fun r => isBlankVal (RawRow.getVal r onKey)) then
    .error (.blankColumn onKey "(right)")
  else
    let m := innerMerge left right onKey sA sB
    if m.rows.length ≠ left.rows.length ∨ m.rows.length ≠ right.rows.length then
      .error (.imperfect left.rows.length right.rows.length m.rows.length)
    else .ok m

/-- A Prepared Row: the four derived sort/filter keys of `prepare_silver`
plus the underlying silver row (`payload`, carrying every original column).
Nullable keys stay optional; `report_date` and `date_submitted` use the
order-preserving natural-number encodings of their parsers. -/
structure PreparedRow where
  crd : Option Int
  report_date : Option Nat
  date_submitted : Option Nat
  filing_id : Option String
  payload : RawRow
deriving DecidableEq

/-- A prepared DataFrame: the original columns plus the four key columns. -/
structure PreparedFrame where
  cols : List String
  rows : List PreparedRow
deriving DecidableEq

/-- Errors raised by `prepare_silver`: the two `KeyError`s for missing source
columns, and the pandas `TypeError` of `.astype("Int64")` when a parsed firm
identifier is numeric but not integral. -/
inductive PrepError where
  | missingColumn (col : String)
  | intCastError
deriving DecidableEq

/-- Strict order of the ascending, nulls-last component on optional integers
(pandas `ascending=True, na_position="last"`). -/
def ltOptIntAsc : Option Int → Option Int → Bool
  | some x, some y => x < y
  | some _, none => true
  | none, some _ => false
  | none, none => false

/-- Strict order of a descending, nulls-last component on the natural-number
date encoding (pandas `ascending=False, na_position="last"`). -/
def ltOptNatDesc : Option Nat → Option Nat → Bool
  | some x, some y => y < x
  | some _, none => true
  | none, some _ => false
  | none, none => false

/-- Non-strict order of the descending, nulls-last component on optional
strings (final tie-break column; code-point comparison as in pandas). -/
def leOptStrDesc : Option String → Option String → Bool
  | some x, some y => ! charListLt x.toList y.toList
  | some _, none => true
  | none, some _ => false
  | none, none => true

/-- The shared 4-key sort order of `build_gold`:
`sort_values(["crd", "report_date", "date_submitted", "filing_id"],
ascending=[True, False, False, False], na_position="last")`.
Boolean total preorder; ties on all four keys compare equal both ways. -/
def key4le (a b : PreparedRow) : Bool :=
  ltOptIntAsc a.crd b.crd ||
    (a.crd == b.crd &&
      (ltOptNatDesc a.report_date b.report_date ||
        (a.report_date == b.report_date &&
          (ltOptNatDesc a.date_submitted b.date_submitted ||
            (a.date_submitted == b.date_submitted &&
              leOptStrDesc a.filing_id b.filing_id)))))

/-- The 4-key order as a Prop relation, for the sorting machinery. -/
def key4R (a b : PreparedRow) : Prop := key4le a b = true

instance : DecidableRel key4R := fun a b => instDecidableEqBool (key4le a b) true

/-- Non-strict order of the ascending, nulls-last component on the date
encoding. -/
def leOptNatAsc : Option Nat → Option Nat → Bool
  | some x, some y => x ≤ y
  | some _, none => true
  | none, some _ => false
  | none, none => true

/-- The 2-key re-sort used downstream:
`sort_values(["crd", "report_date"])`, both ascending, nulls last. -/
def key2le (a b : PreparedRow) : Bool :=
  ltOptIntAsc a.crd b.crd || (a.crd == b.crd && leOptNatAsc a.report_date b.report_date)

/-- The 2-key order as a Prop relation. -/
def key2R (a b : PreparedRow) : Prop := key2le a b = true

instance : DecidableRel key2R := fun a b => instDecidableEqBool (key2le a b) true

/-- Multi-column `DataFrame.sort_values` is a stable sort (pandas uses
`np.lexsort` whenever more than one sort column is given); `insertionSort`
is the stable sort of the model. -/
def sortPrepared (l : List PreparedRow) : List PreparedRow :=
  List.insertionSort key4R l

/-- Stable sort by the 2-key order. -/
def sortPrepared2 (l : List PreparedRow) : List PreparedRow :=
  List.insertionSort key2R l

/-- Worker of `drop_duplicates`: keep each element whose key is not in the
seen set, recording keys in encounter order. -/
def dropDupAux {α κ : Type} [DecidableEq κ] (key : α → κ) (seen : List κ) :
    List α → List α
  | [] => []
  | x :: xs =>
    if key x ∈ seen then dropDupAux key seen xs
    else x :: dropDupAux key (key x :: seen) xs

/-- Model of `drop_duplicates(subset=keys, keep="first")`: keep each row whose
key has not appeared earlier, preserving order. -/
def dropDuplicatesBy {α κ : Type} [DecidableEq κ] (key : α → κ) (l : List α) : List α :=
  dropDupAux key [] l

/-- Embedding of `prepare_silver(df)`: empty input returns the empty frame with
the four key columns; otherwise the CRD and REPORT_DATE source columns are
required, the four keys are derived per row, rows with a missing `crd` or
`report_date` are dropped, `crd` is cast to integer (`astype("Int64")`, which
fails on a non-integral numeric value), and the result is sorted by the 4-key
order. -/
def prepare_silver (df : DataFrame) : Except PrepError PreparedFrame :=
  if df.rows.isEmpty then
    .ok ⟨["crd", "report_date", "date_submitted", "filing_id"], []⟩
  else if "1E1" ∉ df.cols then .error (.missingColumn "1E1")
  else if "REPORT_DATE" ∉ df.cols then .error (.missingColumn "REPORT_DATE")
  else
    let keyed := df.rows.filterMap (fun r =>
      match toNumericVal (RawRow.getVal r "1E1"), parseDate8Val (RawRow.getVal r "REPORT_DATE") with
      | some q, some d => some (q, d, r)
      | _, _ => none)
    if keyed.all (fun t => t.1.den == 1) then
      .ok ⟨df.cols ++ ["crd", "report_date", "date_submitted", "filing_id"],
        sortPrepared (keyed.map (fun t =>
          { crd := some t.1.num,
            report_date := some t.2.1,
            date_submitted := parseDateLenient (RawRow.getVal t.2.2 "DATESUBMITTED"),
            filing_id := RawRow.getVal t.2.2 "FILING_ID",
            payload := t.2.2 }))⟩
    else .error .intCastError

/-- Embedding of `_latest_per_period(df)` on the rows: sort by the 4-key order,
keep the first row of each (crd, report_date) group, then re-sort ascending by
(crd, report_date). -/
def latestPerPeriodRows (l : List PreparedRow) : List PreparedRow :=
  if l.isEmpty then l
  else
    sortPrepared2 (dropDuplicatesBy (fun r => (r.crd, r.report_date)) (sortPrepared l))

/-- Embedding of `_latest_per_crd(df)` on the rows: sort by the 4-key order and
keep the first row of each crd group. -/
def latestPerCrdRows (l : List PreparedRow) : List PreparedRow :=
  if l.isEmpty then l
  else dropDuplicatesBy (fun r => r.crd) (sortPrepared l)

/-- Frame-level `_latest_per_period` (columns unchanged). -/
def latest_per_period (pf : PreparedFrame) : PreparedFrame :=
  ⟨pf.cols, latestPerPeriodRows pf.rows⟩

/-- Frame-level `_latest_per_crd` (columns unchanged). -/
def latest_per_crd (pf : PreparedFrame) : PreparedFrame :=
  ⟨pf.cols, latestPerCrdRows pf.rows⟩

/-- Truthy token set of `build_gold.py`. -/
def TRUE_VALUES : List String := ["Y", "YES", "TRUE", "T", "1"]

/-- Embedding of `_boolean_from_series` at one cell:
`series.fillna("").astype(str).str.strip().str.upper().isin(TRUE_VALUES)`.
A missing column (`series is None`, all-False output) and a missing value both
arrive here as `none` and map to `false` through `fillna("")`. -/
def booleanFromValue (v : Option String) : Bool :=
  TRUE_VALUES.contains (pyUpper (pyStrip (v.getD "")))

/-- Embedding of `_clean_text` at one cell: strip surrounding whitespace,
keep missing as missing. -/
def cleanTextValue (v : Option String) : Option String :=
  v.map pyStrip

/-- Half-to-even rounding of `Series.round()` (numpy rounding), computed on
the reduced numerator and denominator: with f = ⌊q⌋ the fractional part
q - f compares against 1/2 exactly as 2 * (num - f * den) against den. -/
def roundHalfToEven (q : Rat) : Int :=
  let f := ⌊q⌋
  let r2 := 2 * (q.num - f * (q.den : Int))
  if r2 < (q.den : Int) then f
  else if (q.den : Int) < r2 then f + 1
  else if f % 2 = 0 then f else f + 1

/-- Embedding of `_numeric_int` at one cell:
`pd.to_numeric(series, errors="coerce").round().astype("Int64")`. -/
def numericIntValue (v : Option String) : Option Int :=
  (toNumericVal v).map roundHalfToEven

/-- A typed gold-table cell. -/
inductive Cell where
  | null
  | int (i : Int)
  | rat (q : Rat)
  | str (s : String)
  | bool (b : Bool)
  | date (d : Nat)
deriving DecidableEq

/-- A gold-table row: output column name to typed cell. -/
abbrev OutRow := List (String × Cell)

/-- Cell access on a gold row; an absent column reads as missing. -/
def OutRow.getCell (r : OutRow) (c : String) : Cell :=
  match lookupStr r c with
  | some v => v
  | none => .null

/-- A gold table. -/
structure Table where
  cols : List String
  rows : List OutRow
deriving DecidableEq

/-- Nullable integer cell (`Int64` column). -/
def cellOfOptInt (v : Option Int) : Cell :=
  match v with
  | some i => .int i
  | none => .null

/-- Nullable float cell (`float64` column; exact rationals in the model). -/
def cellOfOptRat (v : Option Rat) : Cell :=
  match v with
  | some q => .rat q
  | none => .null

/-- Nullable string cell. -/
def cellOfOptStr (v : Option String) : Cell :=
  match v with
  | some s => .str s
  | none => .null

/-- Nullable date cell. -/
def cellOfOptDate (v : Option Nat) : Cell :=
  match v with
  | some d => .date d
  | none => .null

/-- Column list of the firm master table. -/
def firmMasterCols : List String :=
  ["CRD Number", "Firm Legal Name", "Primary Business Name", "Ownership Type",
   "Custody", "Disciplinary Info Provided", "Employees – Total",
   "Regulatory AUM – Total (USD)", "Regulatory AUM – Non-Discretionary (USD)"]

/-- Embedding of `build_firm_master(df)`: the latest-per-firm reduction mapped
to the nine documented columns (empty input keeps the declared column set). -/
def build_firm_master (pf : PreparedFrame) : Table :=
  let latest := latestPerCrdRows pf.rows
  if latest.isEmpty then ⟨firmMasterCols, []⟩
  else
    ⟨firmMasterCols, latest.map (fun r =>
      [("CRD Number", cellOfOptInt r.crd),
       ("Firm Legal Name", cellOfOptStr (cleanTextValue (RawRow.getVal r.payload "1A"))),
       ("Primary Business Name", cellOfOptStr (cleanTextValue (RawRow.getVal r.payload "1B1"))),
       ("Ownership Type", cellOfOptStr (cleanTextValue (RawRow.getVal r.payload "3A"))),
       ("Custody", Cell.bool (booleanFromValue (RawRow.getVal r.payload "7B"))),
       ("Disciplinary Info Provided", Cell.bool (booleanFromValue (RawRow.getVal r.payload "11"))),
       ("Employees – Total", cellOfOptInt (numericIntValue (RawRow.getVal r.payload "5A"))),
       ("Regulatory AUM – Total (USD)", cellOfOptRat (toNumericVal (RawRow.getVal r.payload "5F3"))),
       ("Regulatory AUM – Non-Discretionary (USD)",
         cellOfOptRat (toNumericVal (RawRow.getVal r.payload "5F2B")))])⟩

/-- State-flag source columns of `_prepare_notice_components`: the canonical
columns beginning with the `2_` state prefix, sorted (Python `sorted`). -/
def noticeStateCols (pf : PreparedFrame) : List String :=
  List.insertionSort (fun a b => strLeB a b = true)
    (pf.cols.filter (fun c => startsWithB c "2_"))

/-- State code of a state-flag column: everything after the first underscore
(`c.split("_", 1)[1]`). -/
def stateCodeOf (c : String) : String :=
  match splitOnChar '_' c.toList with
  | [] => ""
  | _ :: rest => String.intercalate "_" (rest.map String.mk)

/-- Base (non-state) column list of the notice filings wide table. -/
def noticeBaseCols : List String :=
  ["CRD Number", "Report Date", "Filing ID", "States Filed", "States Count"]

/-- Embedding of `build_notice_filings_wide(df)` (with
`_prepare_notice_components` inlined at the row level): the latest-per-period
reduction; each state-flag column becomes a boolean column named by its state
code via the truthy-token rule, with the pipe-joined `States Filed` list and
the `States Count` total; without state columns the table degenerates to the
base columns with `States Count` 0 and `States Filed` missing. The final
`sort_values(["CRD Number", "Report Date"])` of the output table is applied as
the stable 2-key sort of the underlying prepared rows, whose keys the output
cells carry unchanged. -/
def build_notice_filings_wide (pf : PreparedFrame) : Table :=
  let per_period := latestPerPeriodRows pf.rows
  if per_period.isEmpty then ⟨noticeBaseCols, []⟩
  else
    let state_cols := noticeStateCols pf
    let state_codes := state_cols.map stateCodeOf
    let sortedRows := sortPrepared2 per_period
    if state_cols.isEmpty then
      ⟨noticeBaseCols, sortedRows.map (fun r =>
        [("CRD Number", cellOfOptInt r.crd),
         ("Report Date", cellOfOptDate r.report_date),
         ("Filing ID", cellOfOptStr r.filing_id),
         ("States Filed", Cell.null),
         ("States Count", Cell.int 0)])⟩
    else
      ⟨noticeBaseCols ++ state_codes, sortedRows.map (fun r =>
        let flags := (state_cols.zip state_codes).map
          (fun p => (p.2, booleanFromValue (RawRow.getVal r.payload p.1)))
        let trueCodes := (flags.filter (fun p => p.2)).map (fun p => p.1)
        [("CRD Number", cellOfOptInt r.crd),
         ("Report Date", cellOfOptDate r.report_date),
         ("Filing ID", cellOfOptStr r.filing_id),
         ("States Filed",
           if trueCodes.isEmpty then Cell.null
           else Cell.str (String.intercalate "|" trueCodes)),
         ("States Count", Cell.int trueCodes.length)] ++
          flags.map (fun p => (p.1, Cell.bool p.2)))⟩

/-- Strict order of the ascending, nulls-last sort on an integer cell column
(non-integer cells do not occur in these columns and group with null). -/
def ltCellIntAsc : Cell → Cell → Bool
  | .int x, .int y => x < y
  | .int _, _ => true
  | _, .int _ => false
  | _, _ => false

/-- Non-strict order of the descending, nulls-last sort on a date cell
column. -/
def leCellDateDesc : Cell → Cell → Bool
  | .date x, .date y => y ≤ x
  | .date _, _ => true
  | _, .date _ => false
  | _, _ => true

/-- Sort order of
`notice_wide.sort_values(["CRD Number", "Report Date"], ascending=[True, False])`. -/
def wideLatestLe (a b : OutRow) : Bool :=
  ltCellIntAsc (OutRow.getCell a "CRD Number") (OutRow.getCell b "CRD Number") ||
    (OutRow.getCell a "CRD Number" == OutRow.getCell b "CRD Number" &&
      leCellDateDesc (OutRow.getCell a "Report Date") (OutRow.getCell b "Report Date"))

/-- The wide-table latest sort order as a Prop relation. -/
def wideLatestR (a b : OutRow) : Prop := wideLatestLe a b = true

instance : DecidableRel wideLatestR := fun a b => instDecidableEqBool (wideLatestLe a b) true

/-- Restriction of a wide table to each firm's single most-recent period:
sort by (CRD ascending, Report Date descending) and keep the first row per
CRD (`drop_duplicates(subset=["CRD Number"], keep="first")`). -/
def latestWideRows (t : Table) : List OutRow :=
  dropDuplicatesBy (fun r => OutRow.getCell r "CRD Number")
    (List.insertionSort wideLatestR t.rows)

/-- Bool-cell test. -/
def isBoolCell : Cell → Bool
  | .bool _ => true
  | _ => false

/-- Columns of boolean dtype (`notice_wide[c].dtype == bool`): in the model,
columns all of whose cells are booleans (the builder constructs exactly the
state columns that way; dtype on zero rows is handled by the empty early
return). -/
def boolCols (t : Table) : List String :=
  t.cols.filter (fun c => t.rows.all (fun r => isBoolCell (OutRow.getCell r c)))

/-- Number of latest-period firms with the given state column true
(`latest[state_cols].sum(axis=0)` for one column). -/
def stateFirmCount (t : Table) (c : String) : Int :=
  ((latestWideRows t).countP (fun r => OutRow.getCell r c == Cell.bool true) : Int)

/-- Sort order of the summary:
`sort_values(["Firm Count", "State"], ascending=[False, True])`. -/
def countLe (p q : String × Int) : Bool :=
  q.2 < p.2 || (p.2 == q.2 && strLeB p.1 q.1)

/-- The summary sort order as a Prop relation. -/
def countR (p q : String × Int) : Prop := countLe p q = true

instance : DecidableRel countR := fun a b => instDecidableEqBool (countLe a b) true

/-- Embedding of `build_notice_state_counts(notice_wide)`: restrict to each
firm's most-recent period, count the firms with each boolean state column
true, and sort by count descending then state code ascending. -/
def build_notice_state_counts (t : Table) : Table :=
  if t.rows.isEmpty then ⟨["State", "Firm Count"], []⟩
  else
    let state_cols := boolCols t
    if state_cols.isEmpty then ⟨["State", "Firm Count"], []⟩
    else
      let counts := state_cols.map (fun c => (c, stateFirmCount t c))
      ⟨["State", "Firm Count"],
        (List.insertionSort countR counts).map
          (fun p => [("State", Cell.str p.1), ("Firm Count", Cell.int p.2)])⟩

/-- Worker of the non-alphanumeric collapse; the flag records whether the
previous character belonged to a non-alphanumeric run already replaced. -/
def collapseAux : Bool → List Char → List Char
  | _, [] => []
  | inRun, c :: cs =>
    if c.isAlphanum then c :: collapseAux false cs
    else if inRun then collapseAux true cs
    else '_' :: collapseAux true cs

/-- Model of `re.sub(r"[^0-9A-Za-z]+", "_", s)`: every maximal run of
non-alphanumeric characters becomes a single underscore. -/
def collapseNonAlnum (l : List Char) : List Char :=
  collapseAux false l

/-- Python `str.strip("_")` on a character list. -/
def stripUnderscoreChars (l : List Char) : List Char :=
  ((l.dropWhile (fun c => c = '_')).reverse.dropWhile (fun c => c = '_')).reverse

/-- Embedding of `_canon(s)`: byte-order marks removed, Unicode NFKC
normalization (the identity on the ASCII header alphabet of this dataset, and
modelled as the identity), whitespace stripped, non-alphanumeric runs
collapsed to single underscores, outer underscores stripped, upper-cased. -/
def canonHeader (s : String) : String :=
  String.mk ((stripUnderscoreChars (collapseNonAlnum
    (trimChars (s.toList.filter (fun c => c ≠ '﻿'))))).map Char.toUpper)

/-- The `_CANON_MAP` alias table. -/
def CANON_MAP : List (String × String) :=
  [("FILINGID", "FILING_ID"), ("FILING_ID", "FILING_ID"), ("FILINGNUMBER", "FILING_ID"),
   ("FILING_NO", "FILING_ID"), ("FILING-NUMBER", "FILING_ID"),
   ("FIRMCRD", "CRD"), ("FIRM_CRD", "CRD"), ("CRD", "CRD"),
   ("SEC#", "SEC"), ("SEC_NUMBER", "SEC"), ("SEC", "SEC"),
   ("FIRMNAME", "FIRM_NAME"), ("FIRM_NAME", "FIRM_NAME")]

/-- Canonicalize one header: `_CANON_MAP.get(_canon(c), _canon(c))`. -/
def applyCanon (c : String) : String :=
  ((lookupStr CANON_MAP (canonHeader c)).getD (canonHeader c))

/-- Increment the count recorded for a canonical name (`seen[c] += 1`). -/
def bumpSeen (seen : List (String × Nat)) (c : String) : List (String × Nat) :=
  seen.map (fun p => if p.1 = c then (p.1, p.2 + 1) else p)

/-- Collision pass of `normalize_cols`: a canonical name already seen k + 1
times before gets the suffix `__(k+1)`; a fresh name passes through and is
recorded. -/
def dedupSuffix (seen : List (String × Nat)) : List String → List String
  | [] => []
  | c :: cs =>
    match lookupStr seen c with
    | some k => (c ++ "__" ++ toString (k + 1)) :: dedupSuffix (bumpSeen seen c) cs
    | none => c :: dedupSuffix ((c, 0) :: seen) cs

/-- Embedding of `normalize_cols` on the header list: canonicalize every
header, then de-duplicate collisions in encounter order. -/
def normalize_cols (cols : List String) : List String :=
  dedupSuffix [] (cols.map applyCanon)

/-- Carrier of the ascending, nulls-last component on optional integers. -/
abbrev KCrd := Lex (Bool × Int)

/-- Carrier of a descending, nulls-last component on date encodings. -/
abbrev KNatD := Lex (Bool × OrderDual Nat)

/-- Carrier of the descending, nulls-last component on optional strings. -/
abbrev KStrD := Lex (Bool × OrderDual (List Char))

/-- Order-theoretic form of the crd component. -/
def kCrd : Option Int → KCrd
  | some x => toLex (false, x)
  | none => toLex (true, 0)

/-- Order-theoretic form of a descending date component. -/
def kNatD : Option Nat → KNatD
  | some x => toLex (false, OrderDual.toDual x)
  | none => toLex (true, OrderDual.toDual 0)

/-- Order-theoretic form of the descending filing-id component. -/
def kStrD : Option String → KStrD
  | some x => toLex (false, OrderDual.toDual x.toList)
  | none => toLex (true, OrderDual.toDual [])

/-- Carrier of the full 4-key ordering. -/
abbrev SortKey := Lex (KCrd × Lex (KNatD × Lex (KNatD × KStrD)))

/-- The 4-key ordering as a single order-preserving map into `SortKey`. -/
def key4 (r : PreparedRow) : SortKey :=
  toLex (kCrd r.crd,
    toLex (kNatD r.report_date, toLex (kNatD r.date_submitted, kStrD r.filing_id)))

theorem kCrd_le_iff (x y : Option Int) :
    kCrd x ≤ kCrd y ↔ (ltOptIntAsc x y = true ∨ x = y) := by
  cases x <;> cases y <;>
      simp [kCrd, ltOptIntAsc, Prod.Lex.le_iff, Bool.lt_iff] <;> omega

theorem kCrd_lt_iff (x y : Option Int) :
    kCrd x < kCrd y ↔ ltOptIntAsc x y = true := by
  cases x <;> cases y <;>
      simp [kCrd, ltOptIntAsc, Prod.Lex.lt_iff, Bool.lt_iff]

theorem kCrd_inj (x y : Option Int) : kCrd x = kCrd y ↔ x = y := by
  cases x <;> cases y <;> simp [kCrd]

theorem kNatD_le_iff (x y : Option Nat) :
    kNatD x ≤ kNatD y ↔ (ltOptNatDesc x y = true ∨ x = y) := by
  cases x <;> cases y <;>
      simp [kNatD, ltOptNatDesc, Prod.Lex.le_iff, Bool.lt_iff] <;> omega

theorem kNatD_lt_iff (x y : Option Nat) :
    kNatD x < kNatD y ↔ ltOptNatDesc x y = true := by
  cases x <;> cases y <;>
      simp [kNatD, ltOptNatDesc, Prod.Lex.lt_iff, Bool.lt_iff]

theorem kNatD_inj (x y : Option Nat) : kNatD x = kNatD y ↔ x = y := by
  cases x <;> cases y <;> simp [kNatD]

theorem charListLt_iff : ∀ a b : List Char, charListLt a b = true ↔ List.Lex (· < ·) a b
  | [], [] => by
    constructor
    · intro h; simp [charListLt] at h
    · intro h; cases h
  | [], b :: bs => by
    constructor
    · intro _; exact List.Lex.nil
    · intro _; rfl
  | a :: as, [] => by
    constructor
    · intro h; simp [charListLt] at h
    · intro h; cases h
  | a :: as, b :: bs => by
    simp only [charListLt, Bool.or_eq_true, Bool.and_eq_true, decide_eq_true_eq]
    constructor
    · rintro (h | ⟨rfl, h⟩)
      · exact List.Lex.rel h
      · exact List.Lex.cons ((charListLt_iff as bs).mp h)
    · intro h
      cases h with
      | cons h => exact Or.inr ⟨rfl, (charListLt_iff as bs).mpr h⟩
      | rel h => exact Or.inl h

theorem charListLt_lt_iff (a b : List Char) : charListLt a b = true ↔ a < b :=
  charListLt_iff a b

theorem strLeB_iff (a b : String) : strLeB a b = true ↔ a.toList ≤ b.toList := by
  rw [strLeB, Bool.not_eq_true', ← Bool.not_eq_true, charListLt_lt_iff, not_lt]

theorem toList_inj_str {a b : String} (h : a.toList = b.toList) : a = b := by
  cases a; cases b; exact congrArg String.mk h

theorem kStrD_le_iff (x y : Option String) :
    kStrD x ≤ kStrD y ↔ leOptStrDesc x y = true := by
  cases x with
  | none =>
    cases y with
    | none => simp [kStrD, leOptStrDesc]
    | some b => simp [kStrD, leOptStrDesc, Prod.Lex.le_iff, Bool.lt_iff]
  | some a =>
    cases y with
    | none => simp [kStrD, leOptStrDesc, Prod.Lex.le_iff, Bool.lt_iff]
    | some b =>
      simp only [kStrD, leOptStrDesc, Prod.Lex.le_iff, Bool.lt_iff, OrderDual.toDual_le_toDual,
        Bool.not_eq_true', ← Bool.not_eq_true, charListLt_lt_iff, not_lt]
      simp

theorem kStrD_inj (x y : Option String) : kStrD x = kStrD y ↔ x = y := by
  cases x <;> cases y <;> simp [kStrD]
  constructor
  · exact fun h => toList_inj_str h
  · rintro rfl; rfl

theorem key4_le_iff (a b : PreparedRow) : key4 a ≤ key4 b ↔ key4R a b := by
  simp only [key4, key4R, key4le, Prod.Lex.le_iff, Prod.Lex.lt_iff, toLex_inj, Prod.mk.injEq,
    kCrd_le_iff, kCrd_lt_iff, kCrd_inj, kNatD_le_iff, kNatD_lt_iff, kNatD_inj, kStrD_le_iff,
    Bool.or_eq_true, Bool.and_eq_true, beq_iff_eq]

theorem key4_eq_keys {a b : PreparedRow} (h : key4 a = key4 b) :
    a.crd = b.crd ∧ a.report_date = b.report_date ∧
      a.date_submitted = b.date_submitted ∧ a.filing_id = b.filing_id := by
  simp only [key4, toLex_inj, Prod.mk.injEq, kCrd_inj, kNatD_inj, kStrD_inj] at h
  exact ⟨h.1, h.2.1, h.2.2.1, h.2.2.2⟩

instance : IsTotal PreparedRow key4R :=
  ⟨fun a b => by
    rcases le_total (key4 a) (key4 b) with h | h
    · exact Or.inl ((key4_le_iff a b).mp h)
    · exact Or.inr ((key4_le_iff b a).mp h)⟩

instance : IsTrans PreparedRow key4R :=
  ⟨fun a b c hab hbc =>
    (key4_le_iff a c).mp (le_trans ((key4_le_iff a b).mpr hab) ((key4_le_iff b c).mpr hbc))⟩

theorem key4R_antisymm {a b : PreparedRow} (hab : key4R a b) (hba : key4R b a) :
    a.crd = b.crd ∧ a.report_date = b.report_date ∧
      a.date_submitted = b.date_submitted ∧ a.filing_id = b.filing_id :=
  key4_eq_keys (le_antisymm ((key4_le_iff a b).mpr hab) ((key4_le_iff b a).mpr hba))

/-- Sorted lists that are permutations of each other are equal, provided the
order is antisymmetric on the elements involved. -/
theorem eq_of_perm_of_sorted_of_antisymmOn {α : Type} {r : α → α → Prop} :
    ∀ {l₁ l₂ : List α}, l₁.Perm l₂ → l₁.Sorted r → l₂.Sorted r →
      (∀ a ∈ l₁, ∀ b ∈ l₁, r a b → r b a → a = b) → l₁ = l₂ := by
  intro l₁
  induction l₁ with
  | nil =>
    intro l₂ p _ _ _
    exact (p.symm.eq_nil).symm
  | cons a t₁ ih =>
    intro l₂ p s₁ s₂ anti
    cases l₂ with
    | nil => exact absurd p.eq_nil (by simp)
    | cons b t₂ =>
      have hb1 : b ∈ a :: t₁ := p.mem_iff.mpr (List.mem_cons_self b t₂)
      have hab : a = b := by
        by_cases h : a = b
        · exact h
        · have ha2 : a ∈ t₂ := by
            rcases List.mem_cons.mp (p.mem_iff.mp (List.mem_cons_self a t₁)) with h1 | h1
            · exact absurd h1 h
            · exact h1
          have hbt : b ∈ t₁ := by
            rcases List.mem_cons.mp hb1 with h1 | h1
            · exact absurd h1.symm h
            · exact h1
          exact anti a (List.mem_cons_self a t₁) b hb1
            (List.rel_of_sorted_cons s₁ b hbt) (List.rel_of_sorted_cons s₂ a ha2)
      subst hab
      have pt : t₁.Perm t₂ := p.cons_inv
      have ht : t₁ = t₂ :=
        ih pt s₁.of_cons s₂.of_cons
          (fun x hx y hy => anti x (List.mem_cons_of_mem _ hx) y (List.mem_cons_of_mem _ hy))
      rw [ht]

/-- The hypothesis under which the 4-key ordering identifies rows: no two
distinct rows of the list agree on all four ordering keys. -/
def KeyInjectiveOn (l : List PreparedRow) : Prop :=
  ∀ a ∈ l, ∀ b ∈ l, a.crd = b.crd → a.report_date = b.report_date →
    a.date_submitted = b.date_submitted → a.filing_id = b.filing_id → a = b

theorem sortPrepared_eq_of_perm {l₁ l₂ : List PreparedRow} (p : l₁.Perm l₂)
    (hinj : KeyInjectiveOn l₁) : sortPrepared l₁ = sortPrepared l₂ := by
  refine eq_of_perm_of_sorted_of_antisymmOn
    ((List.perm_insertionSort key4R l₁).trans (p.trans (List.perm_insertionSort key4R l₂).symm))
    (List.sorted_insertionSort key4R l₁) (List.sorted_insertionSort key4R l₂) ?_
  intro a ha b hb hab hba
  obtain ⟨h1, h2, h3, h4⟩ := key4R_antisymm hab hba
  exact hinj a ((List.mem_insertionSort key4R).mp ha) b ((List.mem_insertionSort key4R).mp hb)
    h1 h2 h3 h4

theorem dropDupAux_sublist {α κ : Type} [DecidableEq κ] (key : α → κ) :
    ∀ (l : List α) (seen : List κ), (dropDupAux key seen l).Sublist l := by
  intro l
  induction l with
  | nil => intro seen; simp [dropDupAux]
  | cons x xs ih =>
    intro seen
    simp only [dropDupAux]
    split
    · exact (ih seen).cons x
    · exact (ih (key x :: seen)).cons₂ x

theorem dropDupAux_key_not_seen {α κ : Type} [DecidableEq κ] (key : α → κ) :
    ∀ (l : List α) (seen : List κ), ∀ x ∈ dropDupAux key seen l, key x ∉ seen := by
  intro l
  induction l with
  | nil => intro seen x hx; simp [dropDupAux] at hx
  | cons y ys ih =>
    intro seen x hx
    simp only [dropDupAux] at hx
    split at hx
    · exact ih seen x hx
    · rcases List.mem_cons.mp hx with rfl | hmem
      · assumption
      · have := ih (key y :: seen) x hmem
        exact fun hc => this (List.mem_cons_of_mem _ hc)

theorem dropDupAux_pairwise {α κ : Type} [DecidableEq κ] (key : α → κ) :
    ∀ (l : List α) (seen : List κ),
      (dropDupAux key seen l).Pairwise (fun a b => key a ≠ key b) := by
  intro l
  induction l with
  | nil => intro seen; simp [dropDupAux]
  | cons x xs ih =>
    intro seen
    simp only [dropDupAux]
    split
    · exact ih seen
    · refine List.Pairwise.cons ?_ (ih (key x :: seen))
      intro y hy
      have := dropDupAux_key_not_seen key xs (key x :: seen) y hy
      exact fun hc => this (by rw [← hc]; exact List.mem_cons_self _ _)

theorem dropDupAux_eq_self {α κ : Type} [DecidableEq κ] (key : α → κ) :
    ∀ (l : List α) (seen : List κ), l.Pairwise (fun a b => key a ≠ key b) →
      (∀ x ∈ l, key x ∉ seen) → dropDupAux key seen l = l := by
  intro l
  induction l with
  | nil => intro seen _ _; simp [dropDupAux]
  | cons x xs ih =>
    intro seen hdist hseen
    simp only [dropDupAux]
    rw [if_neg (hseen x (List.mem_cons_self x xs))]
    congr 1
    refine ih (key x :: seen) (List.pairwise_cons.mp hdist).2 ?_
    intro y hy
    intro hc
    rcases List.mem_cons.mp hc with h | h
    · exact (List.pairwise_cons.mp hdist).1 y hy h.symm
    · exact hseen y (List.mem_cons_of_mem _ hy) h

theorem dropDuplicatesBy_nonempty {α κ : Type} [DecidableEq κ] (key : α → κ)
    (x : α) (xs : List α) : dropDuplicatesBy key (x :: xs) ≠ [] := by
  simp [dropDuplicatesBy, dropDupAux]

/-- Idempotence of the latest-per-firm reduction at the row level. -/
theorem latestPerCrdRows_idem (l : List PreparedRow) :
    latestPerCrdRows (latestPerCrdRows l) = latestPerCrdRows l := by
  by_cases h : l.isEmpty
  · simp [latestPerCrdRows, h]
  · have hne : latestPerCrdRows l = dropDuplicatesBy (fun r => r.crd) (sortPrepared l) := by
      simp [latestPerCrdRows, h]
    have hsorted : (latestPerCrdRows l).Sorted key4R := by
      rw [hne]
      exact List.Pairwise.sublist (dropDupAux_sublist _ _ _) (List.sorted_insertionSort key4R l)
    have hdist : (latestPerCrdRows l).Pairwise (fun a b => a.crd ≠ b.crd) := by
      rw [hne]
      exact dropDupAux_pairwise _ _ _
    have hsn : sortPrepared l ≠ [] := by
      intro hs
      have hp : (sortPrepared l).Perm l := List.perm_insertionSort key4R l
      rw [hs] at hp
      exact h (List.isEmpty_iff.mpr (hp.symm.eq_nil))
    have hne2 : (latestPerCrdRows l).isEmpty = false := by
      rw [hne]
      cases hs : sortPrepared l with
      | nil => exact absurd hs hsn
      | cons x xs =>
        exact List.isEmpty_eq_false.mpr (dropDuplicatesBy_nonempty (fun r => r.crd) x xs)
    rw [latestPerCrdRows, hne2]
    simp only [Bool.false_eq_true, if_false]
    rw [show sortPrepared (latestPerCrdRows l) = latestPerCrdRows l from
      List.Sorted.insertionSort_eq hsorted]
    exact dropDupAux_eq_self _ _ [] hdist (by simp)

/-- C4: re-running the Latest-per-firm reduction on its own output returns the
output unchanged: one row per firm, stable under re-reduction. -/
theorem latest_per_crd_idempotent (pf : PreparedFrame) :
    latest_per_crd (latest_per_crd pf) = latest_per_crd pf := by
  simp [latest_per_crd, latestPerCrdRows_idem]

/-- C3 (amended): when no two distinct Prepared Rows agree on all four ordering
keys, both reductions are invariant under any permutation of the input rows:
the 4-key ordering alone determines every group's representative. -/
theorem latest_reductions_order_insensitive (pf₁ pf₂ : PreparedFrame)
    (hcols : pf₁.cols = pf₂.cols) (hperm : pf₁.rows.Perm pf₂.rows)
    (hinj : KeyInjectiveOn pf₁.rows) :
    latest_per_period pf₁ = latest_per_period pf₂ ∧ latest_per_crd pf₁ = latest_per_crd pf₂ := by
  have hsort : sortPrepared pf₁.rows = sortPrepared pf₂.rows :=
    sortPrepared_eq_of_perm hperm hinj
  by_cases hx : pf₁.rows = []
  · have h2 : pf₂.rows = [] := by rw [hx] at hperm; exact hperm.symm.eq_nil
    constructor
    · simp [latest_per_period, latestPerPeriodRows, hx, h2, hcols]
    · simp [latest_per_crd, latestPerCrdRows, hx, h2, hcols]
  · have h2 : pf₂.rows ≠ [] := fun hh => hx (by rw [hh] at hperm; exact hperm.eq_nil)
    have h1f : pf₁.rows.isEmpty = false := List.isEmpty_eq_false.mpr hx
    have h2f : pf₂.rows.isEmpty = false := List.isEmpty_eq_false.mpr h2
    constructor
    · simp [latest_per_period, latestPerPeriodRows, h1f, h2f, hcols, hsort]
    · simp [latest_per_crd, latestPerCrdRows, h1f, h2f, hcols, hsort]

/-- First row of the order-sensitivity counterexample: the two rows agree on
all four ordering keys and differ only in a payload column. -/
def cxRowA : PreparedRow :=
  ⟨some 100, some 20230101, none, none, [("5A", some "1")]⟩

/-- Second row of the order-sensitivity counterexample. -/
def cxRowB : PreparedRow :=
  ⟨some 100, some 20230101, none, none, [("5A", some "2")]⟩

/-- Frame holding the counterexample rows in one order. -/
def cxPf1 : PreparedFrame := ⟨["5A"], [cxRowA, cxRowB]⟩

/-- The same frame with the rows transposed. -/
def cxPf2 : PreparedFrame := ⟨["5A"], [cxRowB, cxRowA]⟩

/-- C3 (counterexample): the claim fails as stated — the two frames hold the
same set of Prepared Rows in different arrival orders, yet both reductions
pick a different representative for firm 100, because the stable multi-column
sort preserves arrival order between rows tied on all four keys and
`drop_duplicates(keep="first")` then keeps the earlier one. -/
theorem latest_reductions_order_sensitive :
    cxPf1.rows.Perm cxPf2.rows ∧
      latest_per_crd cxPf1 ≠ latest_per_crd cxPf2 ∧
      latest_per_period cxPf1 ≠ latest_per_period cxPf2 := by
  refine ⟨List.Perm.swap cxRowB cxRowA [], ?_, ?_⟩ <;> decide

/-- C3 (witness): a two-row frame with distinct report dates satisfies the
key-injectivity hypothesis, and both reductions then ignore arrival order. -/
def wRowA : PreparedRow :=
  ⟨some 100, some 20230101, some 20230115000000, some "42", [("5A", some "10")]⟩

/-- Witness row with the later period. -/
def wRowB : PreparedRow :=
  ⟨some 100, some 20230401, some 20230410000000, some "57", [("5A", some "11")]⟩

/-- Witness frame, one arrival order. -/
def wPf1 : PreparedFrame := ⟨["5A"], [wRowA, wRowB]⟩

/-- Witness frame, transposed arrival order. -/
def wPf2 : PreparedFrame := ⟨["5A"], [wRowB, wRowA]⟩

instance (l : List PreparedRow) : Decidable (KeyInjectiveOn l) :=
  inferInstanceAs (Decidable (∀ a ∈ l, ∀ b ∈ l, a.crd = b.crd → a.report_date = b.report_date →
    a.date_submitted = b.date_submitted → a.filing_id = b.filing_id → a = b))

theorem latest_reductions_order_insensitive_witness :
    latest_per_period wPf1 = latest_per_period wPf2 ∧
      latest_per_crd wPf1 = latest_per_crd wPf2 :=
  latest_reductions_order_insensitive wPf1 wPf2 (by decide)
    (List.Perm.swap wRowB wRowA []) (by decide)

/-- C5: the boolean-flag derivation is true exactly on the trimmed,
case-insensitive truthy tokens, and maps the spec's sample inputs as stated
(null and missing map to false). -/
theorem boolean_flag_truthy :
    (∀ v : Option String, booleanFromValue v = true ↔
      pyUpper (pyStrip (v.getD "")) ∈ TRUE_VALUES) ∧
    booleanFromValue (some "Y") = true ∧ booleanFromValue (some "yes") = true ∧
    booleanFromValue (some "  TRUE ") = true ∧ booleanFromValue (some "1") = true ∧
    booleanFromValue (some "N") = false ∧ booleanFromValue (some "0") = false ∧
    booleanFromValue (some "") = false ∧ booleanFromValue none = false ∧
    booleanFromValue (some "maybe") = false := by
  refine ⟨fun v => ?_, ?_, ?_, ?_, ?_, ?_, ?_, ?_, ?_, ?_⟩
  · simp [booleanFromValue]
  all_goals decide

theorem innerMerge_length (left right : DataFrame) (onKey sA sB : String) :
    (innerMerge left right onKey sA sB).rows.length = mergedRowCount left right onKey := by
  simp [innerMerge, mergedRowCount, Function.comp_def]

/-- C1: with the join key present and non-blank on both sides, `perfect_merge`
succeeds exactly when the inner-join row count equals both input row counts;
on failure it raises the integrity error carrying the three counts (L, R, M),
and on success the returned table has exactly the common row count. -/
theorem perfect_merge_integrity (left right : DataFrame) (onKey sA sB : String)
    (hL : onKey ∈ left.cols) (hR : onKey ∈ right.cols)
    (hbL : ∀ r ∈ left.rows, isBlankVal (RawRow.getVal r onKey) = false)
    (hbR : ∀ r ∈ right.rows, isBlankVal (RawRow.getVal r onKey) = false) :
    (mergedRowCount left right onKey = left.rows.length ∧
        mergedRowCount left right onKey = right.rows.length →
      ∃ df, perfect_merge left right onKey sA sB = .ok df ∧
        df.rows.length = left.rows.length ∧ df.rows.length = right.rows.length) ∧
    (¬ (mergedRowCount left right onKey = left.rows.length ∧
        mergedRowCount left right onKey = right.rows.length) →
      perfect_merge left right onKey sA sB =
        .error (.imperfect left.rows.length right.rows.length
          (mergedRowCount left right onKey))) := by
  have hanyL : left.rows.any (fun r => isBlankVal (RawRow.getVal r onKey)) = false := by
    simp only [List.any_eq_false]
    intro r hr
    simp [hbL r hr]
  have hanyR : right.rows.any (fun r => isBlankVal (RawRow.getVal r onKey)) = false := by
    simp only [List.any_eq_false]
    intro r hr
    simp [hbR r hr]
  have hm := innerMerge_length left right onKey sA sB
  constructor
  · rintro ⟨h1, h2⟩
    refine ⟨innerMerge left right onKey sA sB, ?_, by rw [hm]; exact h1, by rw [hm]; exact h2⟩
    rw [perfect_merge, if_neg (by simpa using hL), if_neg (by simpa using hR)]
    rw [hanyL, hanyR]
    simp only [Bool.false_eq_true, if_false]
    rw [if_neg]
    push_neg
    rw [hm]
    exact ⟨h1, h2⟩
  · intro hne
    rw [perfect_merge, if_neg (by simpa using hL), if_neg (by simpa using hR)]
    rw [hanyL, hanyR]
    simp only [Bool.false_eq_true, if_false]
    rw [if_pos, hm]
    rw [hm]
    by_contra hc
    push_neg at hc
    exact absurd hc ((not_and_or.mp hne).elim (fun h => fun hh => h hh.1) (fun h => fun hh => h hh.2))

/-- C1 (witness): a 1:1 pair succeeds with one row; dropping the match from
the right side trips the integrity error carrying (2, 1, 1). -/
def wLeft : DataFrame :=
  ⟨["FILING_ID", "1A"], [[("FILING_ID", some "42"), ("1A", some "Acme")]]⟩

/-- Witness right input matching `wLeft` 1:1. -/
def wRight : DataFrame :=
  ⟨["FILING_ID", "1B1"], [[("FILING_ID", some "42"), ("1B1", some "Acme Adv")]]⟩

theorem perfect_merge_integrity_witness :
    ∃ df, perfect_merge wLeft wRight "FILING_ID" "_A" "_B" = .ok df ∧
      df.rows.length = wLeft.rows.length ∧ df.rows.length = wRight.rows.length :=
  (perfect_merge_integrity wLeft wRight "FILING_ID" "_A" "_B" (by decide) (by decide)
    (by decide) (by decide)).1 (by decide)

/-- C10: empty input returns the empty frame with exactly the four key columns
and never raises, even without the required source columns; the
missing-column errors arise only on non-empty input lacking one of them. -/
theorem prepare_silver_empty_behavior :
    (∀ df : DataFrame, df.rows = [] →
      prepare_silver df = .ok ⟨["crd", "report_date", "date_submitted", "filing_id"], []⟩) ∧
    (∀ df : DataFrame, df.rows ≠ [] → "1E1" ∉ df.cols →
      prepare_silver df = .error (.missingColumn "1E1")) ∧
    (∀ df : DataFrame, df.rows ≠ [] → "1E1" ∈ df.cols → "REPORT_DATE" ∉ df.cols →
      prepare_silver df = .error (.missingColumn "REPORT_DATE")) ∧
    (∀ (df : DataFrame) (c : String), prepare_silver df = .error (.missingColumn c) →
      df.rows ≠ []) := by
  refine ⟨?_, ?_, ?_, ?_⟩
  · intro df h
    rw [prepare_silver, if_pos (List.isEmpty_iff.mpr h)]
  · intro df h hc
    rw [prepare_silver, if_neg (by simpa [List.isEmpty_iff] using h), if_pos hc]
  · intro df h hc1 hc2
    rw [prepare_silver, if_neg (by simpa [List.isEmpty_iff] using h), if_neg (by simpa using hc1),
      if_pos hc2]
  · intro df c herr hemp
    rw [prepare_silver, if_pos (List.isEmpty_iff.mpr hemp)] at herr
    exact Except.noConfusion herr

/-- C10 (witness): the empty frame with no columns at all prepares to the
four-key empty frame, and a non-empty frame missing the CRD column errors. -/
def wEmptyDf : DataFrame := ⟨[], []⟩

/-- Witness non-empty frame lacking the CRD source column. -/
def wNoCrdDf : DataFrame := ⟨["REPORT_DATE"], [[("REPORT_DATE", some "20230101")]]⟩

theorem prepare_silver_empty_behavior_witness :
    prepare_silver wEmptyDf = .ok ⟨["crd", "report_date", "date_submitted", "filing_id"], []⟩ ∧
      prepare_silver wNoCrdDf = .error (.missingColumn "1E1") :=
  ⟨prepare_silver_empty_behavior.1 wEmptyDf (by decide),
    prepare_silver_empty_behavior.2.1 wNoCrdDf (by decide) (by decide)⟩

/-- C2: whenever the Key Preparer returns, every output row carries a non-null
`crd` and a non-null `report_date`, its payload is an input row on which both
key parses succeed — rows with a non-numeric or missing firm identifier, or a
REPORT_DATE outside the strict 8-digit format, are therefore absent; and with
the source columns present (and no non-integral numeric firm identifier, the
separate `astype` failure mode) the preparer succeeds rather than erring on
such rows. -/
theorem prepare_silver_keys_nonnull :
    (∀ (df : DataFrame) (pf : PreparedFrame), prepare_silver df = .ok pf →
      ∀ r ∈ pf.rows, r.crd ≠ none ∧ r.report_date ≠ none ∧ r.payload ∈ df.rows ∧
        (toNumericVal (RawRow.getVal r.payload "1E1")).isSome = true ∧
        (parseDate8Val (RawRow.getVal r.payload "REPORT_DATE")).isSome = true) ∧
    (∀ df : DataFrame, "1E1" ∈ df.cols → "REPORT_DATE" ∈ df.cols →
      (∀ row ∈ df.rows,
        ((toNumericVal (RawRow.getVal row "1E1")).all (fun q => q.den == 1)) = true) →
      (prepare_silver df).isOk = true) := by
  constructor
  · intro df pf hok r hr
    rw [prepare_silver] at hok
    by_cases hemp : df.rows.isEmpty
    · rw [if_pos hemp] at hok
      obtain rfl := Except.ok.inj hok
      exact absurd hr (by simp)
    · rw [if_neg hemp] at hok
      split_ifs at hok with hc1 hc2
      dsimp only [] at hok
      split at hok
      next =>
        obtain rfl := Except.ok.inj hok
        simp only [sortPrepared, List.mem_insertionSort] at hr
        obtain ⟨t, ht, rfl⟩ := List.mem_map.mp hr
        obtain ⟨row, hrow, hg⟩ := List.mem_filterMap.mp ht
        rcases hq : toNumericVal (RawRow.getVal row "1E1") with _ | q <;>
          rcases hd : parseDate8Val (RawRow.getVal row "REPORT_DATE") with _ | d <;>
          rw [hq, hd] at hg <;> simp only [] at hg
        · exact absurd hg (by simp)
        · exact absurd hg (by simp)
        · exact absurd hg (by simp)
        · obtain rfl := Option.some.inj hg
          refine ⟨by simp, by simp, hrow, by rw [hq]; rfl, by rw [hd]; rfl⟩
      next => exact Except.noConfusion hok
  · intro df h1 h2 hint
    rw [prepare_silver]
    by_cases hemp : df.rows.isEmpty
    · rw [if_pos hemp]; rfl
    · rw [if_neg hemp, if_neg (not_not_intro h1), if_neg (not_not_intro h2), if_pos]
      · rfl
      · rw [List.all_eq_true]
        intro t ht
        obtain ⟨row, hrow, hg⟩ := List.mem_filterMap.mp ht
        have hq := hint row hrow
        rcases hq' : toNumericVal (RawRow.getVal row "1E1") with _ | q <;>
          rcases hd : parseDate8Val (RawRow.getVal row "REPORT_DATE") with _ | d <;>
          rw [hq', hd] at hg <;> simp only [] at hg
        · exact absurd hg (by simp)
        · exact absurd hg (by simp)
        · exact absurd hg (by simp)
        · obtain rfl := Option.some.inj hg
          rw [hq'] at hq
          simpa using hq

/-- C2 (witness): a frame whose second row has a non-numeric firm identifier
and whose third has a malformed report date prepares successfully. -/
def wSilverDf : DataFrame :=
  ⟨["1E1", "REPORT_DATE", "FILING_ID"],
   [[("1E1", some "100"), ("REPORT_DATE", some "20230101"), ("FILING_ID", some "42")],
    [("1E1", some "abc"), ("REPORT_DATE", some "20230101")],
    [("1E1", some "101"), ("REPORT_DATE", some "2023-01-01")]]⟩

theorem prepare_silver_keys_nonnull_witness :
    (prepare_silver wSilverDf).isOk = true :=
  prepare_silver_keys_nonnull.2 wSilverDf (by decide) (by decide) (by decide)

/-- Occurrence count recorded by the collision map: k stored means k + 1
occurrences already processed, nothing stored means none yet. -/
def seenCount (seen : List (String × Nat)) (c : String) : Nat :=
  match lookupStr seen c with
  | some k => k + 1
  | none => 0

theorem lookupStr_bumpSeen (seen : List (String × Nat)) (c c' : String) :
    lookupStr (bumpSeen seen c) c' =
      (lookupStr seen c').map (fun k => if c' = c then k + 1 else k) := by
  induction seen with
  | nil => simp [bumpSeen, lookupStr]
  | cons p ps ih =>
    obtain ⟨a, k0⟩ := p
    by_cases h1 : a = c
    · subst h1
      by_cases h2 : a = c'
      · subst h2
        simp [bumpSeen, lookupStr]
      · simp only [bumpSeen, List.map_cons] at ih ⊢
        simp [lookupStr, h2, ih]
    · by_cases h2 : a = c'
      · subst h2
        simp [bumpSeen, lookupStr, h1, fun hh : a = c => h1 hh]
      · simp only [bumpSeen, List.map_cons] at ih ⊢
        simp [lookupStr, h1, h2, ih]

theorem seenCount_bump (seen : List (String × Nat)) (c c' : String) (k : Nat)
    (hl : lookupStr seen c = some k) :
    seenCount (bumpSeen seen c) c' =
      if c' = c then seenCount seen c' + 1 else seenCount seen c' := by
  rw [seenCount, lookupStr_bumpSeen]
  by_cases h : c' = c
  · subst h
    rw [hl]
    simp [seenCount, hl]
  · cases hc : lookupStr seen c' <;> simp [h, seenCount, hc]

theorem seenCount_record (seen : List (String × Nat)) (c c' : String) :
    seenCount ((c, 0) :: seen) c' = if c = c' then 1 else seenCount seen c' := by
  by_cases h : c = c' <;> simp [seenCount, lookupStr, h]

/-- Specification of the collision pass against prefix occurrence counts:
given a seen-map agreeing with the counts of an already-processed prefix,
position i of the output is the canonical name when it has not occurred
before, and the name suffixed with its prior occurrence count otherwise. -/
theorem dedupSuffix_spec :
    ∀ (rest pre : List String) (seen : List (String × Nat)),
      (∀ c, seenCount seen c = pre.count c) →
      (dedupSuffix seen rest).length = rest.length ∧
      (∀ i, i < rest.length →
        (dedupSuffix seen rest).getD i "" =
          (if pre.count (rest.getD i "") + (rest.take i).count (rest.getD i "") = 0
           then rest.getD i ""
           else rest.getD i "" ++ "__" ++
             toString (pre.count (rest.getD i "") + (rest.take i).count (rest.getD i "")))) := by
  intro rest
  induction rest with
  | nil => exact fun pre seen _ => ⟨rfl, fun i hi => absurd hi (by simp)⟩
  | cons c cs ih =>
    intro pre seen hseen
    simp only [dedupSuffix]
    cases hl : lookupStr seen c with
    | some k =>
      have hpc : pre.count c = k + 1 := by
        have h0 := hseen c
        simp only [seenCount, hl] at h0
        omega
      have hinv : ∀ c', seenCount (bumpSeen seen c) c' = (pre ++ [c]).count c' := by
        intro c'
        rw [seenCount_bump seen c c' k hl, List.count_append]
        by_cases h : c' = c
        · subst h
          rw [if_pos rfl, hseen c']
          simp [List.count_cons]
        · rw [if_neg h, hseen c']
          have hb : (c == c') = false := by simpa using fun hh : c = c' => h hh.symm
          simp [List.count_cons, hb]
      obtain ⟨ihlen, ihget⟩ := ih (pre ++ [c]) (bumpSeen seen c) hinv
      refine ⟨by simp [ihlen], ?_⟩
      intro i hi
      match i with
      | 0 =>
        simp only [List.getD_cons_zero, List.take_zero, List.count_nil, hpc]
        simp
      | Nat.succ j =>
        have hj : j < cs.length := by simpa using hi
        simp only [List.getD_cons_succ]
        rw [ihget j hj]
        have hk : ∀ x : String, (pre ++ [c]).count x + (cs.take j).count x =
            pre.count x + (((c :: cs).take (j + 1)).count x) := by
          intro x
          simp only [List.count_append, List.take_succ_cons, List.count_cons, List.count_nil]
          split <;> omega
        rw [hk]
    | none =>
      have hpc : pre.count c = 0 := by
        have h0 := hseen c
        simp only [seenCount, hl] at h0
        omega
      have hinv : ∀ c', seenCount ((c, 0) :: seen) c' = (pre ++ [c]).count c' := by
        intro c'
        rw [seenCount_record, List.count_append]
        by_cases h : c = c'
        · rw [if_pos h, ← h, hpc]
          simp [List.count_cons]
        · rw [if_neg h, hseen c']
          have hb : (c == c') = false := by simpa using h
          simp [List.count_cons, hb]
      obtain ⟨ihlen, ihget⟩ := ih (pre ++ [c]) ((c, 0) :: seen) hinv
      refine ⟨by simp [ihlen], ?_⟩
      intro i hi
      match i with
      | 0 =>
        simp only [List.getD_cons_zero, List.take_zero, List.count_nil, hpc]
        simp
      | Nat.succ j =>
        have hj : j < cs.length := by simpa using hi
        simp only [List.getD_cons_succ]
        rw [ihget j hj]
        have hk : ∀ x : String, (pre ++ [c]).count x + (cs.take j).count x =
            pre.count x + (((c :: cs).take (j + 1)).count x) := by
          intro x
          simp only [List.count_append, List.take_succ_cons, List.count_cons, List.count_nil]
          split <;> omega
        rw [hk]

/-- C8: the Column Normalizer canonicalizes every header (BOM strip, collapse
of non-alphanumeric runs to single underscores, trimming, upper-case, alias
table) and resolves collisions deterministically: position i of the output is
the canonical name if it has not been produced earlier in the same header
set, and otherwise that name suffixed with `__k` where k counts its earlier
occurrences (encounter order: `__1`, `__2`, …). -/
theorem normalize_cols_collision_suffixes (cols : List String) (i : Nat)
    (hi : i < cols.length) :
    (normalize_cols cols).length = cols.length ∧
    (normalize_cols cols).getD i "" =
      (if ((cols.map applyCanon).take i).count ((cols.map applyCanon).getD i "") = 0
       then (cols.map applyCanon).getD i ""
       else (cols.map applyCanon).getD i "" ++ "__" ++
         toString (((cols.map applyCanon).take i).count ((cols.map applyCanon).getD i ""))) := by
  have h := dedupSuffix_spec (cols.map applyCanon) [] []
    (fun c => by simp [seenCount, lookupStr])
  refine ⟨by simpa [normalize_cols] using h.1, ?_⟩
  have h2 := h.2 i (by simpa using hi)
  simpa [normalize_cols] using h2

/-- C8 (witness): header set with a canonical collision (`Firm CRD` and
`firm-crd` both canonicalize through the alias table to `CRD`). -/
def wHeaders : List String := ["Firm CRD", "firm-crd", "SEC#", "Filing Number", "FirmName"]

theorem normalize_cols_collision_suffixes_witness :
    (normalize_cols wHeaders).length = wHeaders.length ∧
      (normalize_cols wHeaders).getD 1 "" = "CRD__1" :=
  ⟨(normalize_cols_collision_suffixes wHeaders 1 (by decide)).1, by
    rw [(normalize_cols_collision_suffixes wHeaders 1 (by decide)).2]
    decide⟩

theorem fract_mul_den (q : Rat) :
    Int.fract q * (q.den : ℚ) = ((q.num - ⌊q⌋ * (q.den : Int) : Int) : ℚ) := by
  rw [Int.fract]
  push_cast
  rw [sub_mul]
  have hd0 : (0 : ℚ) < (q.den : ℚ) := by exact_mod_cast q.pos
  have hnum : q * (q.den : ℚ) = (q.num : ℚ) := by
    have h := div_mul_cancel₀ (q.num : ℚ) (ne_of_gt hd0)
    rw [Rat.num_div_den q] at h
    exact h
  rw [hnum]

/-- Half-to-even rounding lands within a half of the input: the rounded value
is a nearest integer. -/
theorem roundHalfToEven_dist (q : Rat) : |q - (roundHalfToEven q : Rat)| ≤ 1 / 2 := by
  have hd0 : (0 : ℚ) < (q.den : ℚ) := by exact_mod_cast q.pos
  have hfr0 : 0 ≤ Int.fract q := Int.fract_nonneg q
  have hfr1 : Int.fract q < 1 := Int.fract_lt_one q
  have hf : Int.fract q = q - (⌊q⌋ : ℚ) := rfl
  have key := fract_mul_den q
  unfold roundHalfToEven
  dsimp only
  split_ifs with h1 h2 h3
  · have hc : ((2 * (q.num - ⌊q⌋ * (q.den : Int)) : Int) : ℚ) < ((q.den : Int) : ℚ) := by
      exact_mod_cast h1
    push_cast at hc
    rw [show ((q.num : ℚ) - (⌊q⌋ : ℚ) * (q.den : ℚ)) = Int.fract q * (q.den : ℚ) from by
      rw [key]; push_cast; ring] at hc
    have hlt : Int.fract q < 1 / 2 := by nlinarith
    rw [← hf] at *
    rw [abs_of_nonneg (by linarith [hfr0, hf] )]
    · linarith [hlt, hf]
  · have hc : ((q.den : Int) : ℚ) < ((2 * (q.num - ⌊q⌋ * (q.den : Int)) : Int) : ℚ) := by
      exact_mod_cast h2
    push_cast at hc
    rw [show ((q.num : ℚ) - (⌊q⌋ : ℚ) * (q.den : ℚ)) = Int.fract q * (q.den : ℚ) from by
      rw [key]; push_cast; ring] at hc
    have hgt : 1 / 2 < Int.fract q := by nlinarith
    rw [abs_le]
    push_cast
    constructor <;> linarith [hgt, hfr1, hf]
  · have he : (2 * (q.num - ⌊q⌋ * (q.den : Int)) : Int) = (q.den : Int) :=
      le_antisymm (not_lt.mp h2) (not_lt.mp h1)
    have hc : ((2 * (q.num - ⌊q⌋ * (q.den : Int)) : Int) : ℚ) = ((q.den : Int) : ℚ) := by
      exact_mod_cast he
    push_cast at hc
    rw [show ((q.num : ℚ) - (⌊q⌋ : ℚ) * (q.den : ℚ)) = Int.fract q * (q.den : ℚ) from by
      rw [key]; push_cast; ring] at hc
    have heq : Int.fract q = 1 / 2 := by
      have h2d : 2 * (Int.fract q * (q.den : ℚ)) = (q.den : ℚ) := by linarith
      nlinarith
    rw [abs_le]
    constructor <;> linarith [heq, hf]
  · have he : (2 * (q.num - ⌊q⌋ * (q.den : Int)) : Int) = (q.den : Int) :=
      le_antisymm (not_lt.mp h2) (not_lt.mp h1)
    have hc : ((2 * (q.num - ⌊q⌋ * (q.den : Int)) : Int) : ℚ) = ((q.den : Int) : ℚ) := by
      exact_mod_cast he
    push_cast at hc
    rw [show ((q.num : ℚ) - (⌊q⌋ : ℚ) * (q.den : ℚ)) = Int.fract q * (q.den : ℚ) from by
      rw [key]; push_cast; ring] at hc
    have heq : Int.fract q = 1 / 2 := by
      have h2d : 2 * (Int.fract q * (q.den : ℚ)) = (q.den : ℚ) := by linarith
      nlinarith
    rw [abs_le]
    push_cast
    constructor <;> linarith [heq, hf]

/-- C9: the Firm Master employee count is the numeric parse rounded to a
nearest integer (within one half, with numpy's half-to-even tie-break) and is
null exactly when the source value is unparsable; the builder's
`Employees – Total` column is this derivation applied to the `5A` cell of
each latest-per-firm row. -/
theorem numeric_int_nearest :
    (∀ v : Option String, numericIntValue v = none ↔ toNumericVal v = none) ∧
    (∀ (v : Option String) (q : Rat) (n : Int), toNumericVal v = some q →
      numericIntValue v = some n → |q - (n : Rat)| ≤ 1 / 2) ∧
    (∀ pf : PreparedFrame,
      (build_firm_master pf).rows.map (fun r => OutRow.getCell r "Employees – Total") =
        (latestPerCrdRows pf.rows).map
          (fun r => cellOfOptInt (numericIntValue (RawRow.getVal r.payload "5A")))) := by
  refine ⟨?_, ?_, ?_⟩
  · intro v
    cases h : toNumericVal v <;> simp [numericIntValue, h]
  · intro v q n hq hn
    rw [numericIntValue, hq] at hn
    obtain rfl := Option.some.inj hn
    exact roundHalfToEven_dist q
  · intro pf
    rw [build_firm_master]
    by_cases h : (latestPerCrdRows pf.rows).isEmpty
    · rw [if_pos h]
      simp [List.isEmpty_iff.mp h]
    · rw [if_neg h]
      rw [List.map_map]
      refine List.map_congr_left ?_
      intro r _
      simp [OutRow.getCell, lookupStr]

theorem numeric_int_nearest_witness :
    |Rat.divInt 5 2 - ((2 : Int) : Rat)| ≤ 1 / 2 :=
  numeric_int_nearest.2.1 (some "2.5") (Rat.divInt 5 2) 2 (by decide) (by decide)

theorem latestPerPeriodRows_ne_nil {l : List PreparedRow} (h : l ≠ []) :
    latestPerPeriodRows l ≠ [] := by
  rw [latestPerPeriodRows, if_neg (by simpa [List.isEmpty_iff] using h)]
  intro hc
  have h1 : dropDuplicatesBy (fun r => (r.crd, r.report_date)) (sortPrepared l) = [] := by
    have hp := List.perm_insertionSort key2R
      (dropDuplicatesBy (fun r => (r.crd, r.report_date)) (sortPrepared l))
    rw [show List.insertionSort key2R
        (dropDuplicatesBy (fun r => (r.crd, r.report_date)) (sortPrepared l)) =
        sortPrepared2 (dropDuplicatesBy (fun r => (r.crd, r.report_date)) (sortPrepared l))
      from rfl, hc] at hp
    exact hp.symm.eq_nil
  cases hs : sortPrepared l with
  | nil =>
    have hp := List.perm_insertionSort key4R l
    rw [show List.insertionSort key4R l = sortPrepared l from rfl, hs] at hp
    exact h hp.symm.eq_nil
  | cons x xs =>
    rw [hs] at h1
    exact dropDuplicatesBy_nonempty _ x xs h1

/-- C6 (amended): on non-empty input with no state-flag columns, the wide
notice table consists of exactly the five non-state columns (CRD Number,
Report Date, Filing ID, States Filed, States Count), every row has
`States Count` 0 and `States Filed` null, and no boolean state columns
exist. -/
theorem notice_wide_degenerate (pf : PreparedFrame) (hne : pf.rows ≠ [])
    (hno : ∀ c ∈ pf.cols, startsWithB c "2_" = false) :
    (build_notice_filings_wide pf).cols = noticeBaseCols ∧
    (build_notice_filings_wide pf).rows ≠ [] ∧
    (∀ r ∈ (build_notice_filings_wide pf).rows,
      r.map Prod.fst = noticeBaseCols ∧
      OutRow.getCell r "States Count" = Cell.int 0 ∧
      OutRow.getCell r "States Filed" = Cell.null) := by
  have hstate : noticeStateCols pf = [] := by
    rw [noticeStateCols, List.filter_eq_nil_iff.mpr (by intro c hc; simp [hno c hc])]
    rfl
  have hpp : latestPerPeriodRows pf.rows ≠ [] := latestPerPeriodRows_ne_nil hne
  rw [build_notice_filings_wide]
  rw [if_neg (by simpa [List.isEmpty_iff] using hpp)]
  simp only [hstate, List.isEmpty_nil, if_true]
  refine ⟨trivial, ?_, ?_⟩
  · simp only [ne_eq, List.map_eq_nil_iff]
    intro hc
    have hp := List.perm_insertionSort key2R (latestPerPeriodRows pf.rows)
    rw [show List.insertionSort key2R (latestPerPeriodRows pf.rows) =
        sortPrepared2 (latestPerPeriodRows pf.rows) from rfl, hc] at hp
    exact hpp hp.symm.eq_nil
  · intro r hr
    obtain ⟨x, _, rfl⟩ := List.mem_map.mp hr
    refine ⟨rfl, rfl, rfl⟩

/-- C6 (counterexample): at a concrete state-column-free input the degenerate
wide table has the five base columns, not four: the spec's "four non-state
columns" miscounts the column set. -/
def c6pf : PreparedFrame :=
  ⟨["1E1", "REPORT_DATE"], [⟨some 100, some 20230101, none, none, []⟩]⟩

theorem notice_wide_five_not_four_columns :
    (build_notice_filings_wide c6pf).cols =
      ["CRD Number", "Report Date", "Filing ID", "States Filed", "States Count"] ∧
    (build_notice_filings_wide c6pf).cols.length = 5 ∧
    ¬ (build_notice_filings_wide c6pf).cols.length = 4 := by
  refine ⟨?_, ?_, ?_⟩ <;> decide

theorem notice_wide_degenerate_witness :
    (build_notice_filings_wide c6pf).cols = noticeBaseCols ∧
      (build_notice_filings_wide c6pf).rows ≠ [] :=
  ⟨(notice_wide_degenerate c6pf (by decide) (by decide)).1,
   (notice_wide_degenerate c6pf (by decide) (by decide)).2.1⟩

/-- Order-theoretic form of the summary sort key (count descending, state
code ascending). -/
def kCount (p : String × Int) : Lex (OrderDual Int × List Char) :=
  toLex (OrderDual.toDual p.2, p.1.toList)

theorem kCount_le_iff (p q : String × Int) : kCount p ≤ kCount q ↔ countLe p q = true := by
  simp only [kCount, countLe, Prod.Lex.le_iff, OrderDual.toDual_lt_toDual,
    OrderDual.toDual_inj, Bool.or_eq_true, Bool.and_eq_true, beq_iff_eq,
    decide_eq_true_eq, strLeB_iff]

instance : IsTotal (String × Int) countR :=
  ⟨fun a b => by
    rcases le_total (kCount a) (kCount b) with h | h
    · exact Or.inl ((kCount_le_iff a b).mp h)
    · exact Or.inr ((kCount_le_iff b a).mp h)⟩

instance : IsTrans (String × Int) countR :=
  ⟨fun a b c hab hbc =>
    (kCount_le_iff a c).mp (le_trans ((kCount_le_iff a b).mpr hab) ((kCount_le_iff b c).mpr hbc))⟩

/-- State code carried by a summary row. -/
def summaryState (r : OutRow) : String :=
  match OutRow.getCell r "State" with
  | .str s => s
  | _ => ""

/-- Firm count carried by a summary row. -/
def summaryCount (r : OutRow) : Int :=
  match OutRow.getCell r "Firm Count" with
  | .int n => n
  | _ => 0

/-- C7: on a non-empty wide table, the Notice State Counts builder yields one
row per boolean state column pairing the state with the number of firms whose
single most-recent-period row (CRD ascending, Report Date descending, first
per firm) has that state true, and the rows are sorted by count descending
with ties broken by state code ascending. -/
theorem notice_state_counts_spec (t : Table) (hne : t.rows ≠ []) :
    (build_notice_state_counts t).rows.length = (boolCols t).length ∧
    (∀ c : String, c ∈ boolCols t ↔
      [("State", Cell.str c), ("Firm Count", Cell.int (stateFirmCount t c))] ∈
        (build_notice_state_counts t).rows) ∧
    (build_notice_state_counts t).rows.Pairwise
      (fun a b => countLe (summaryState a, summaryCount a)
        (summaryState b, summaryCount b) = true) := by
  rw [build_notice_state_counts, if_neg (by simpa [List.isEmpty_iff] using hne)]
  by_cases hsc : (boolCols t).isEmpty
  · rw [if_pos hsc]
    have hnil : boolCols t = [] := List.isEmpty_iff.mp hsc
    refine ⟨by simp [hnil], fun c => ?_, by simp⟩
    simp [hnil]
  · rw [if_neg hsc]
    refine ⟨?_, fun c => ⟨fun hc => ?_, fun hrow => ?_⟩, ?_⟩
    · simp [(List.perm_insertionSort countR
        ((boolCols t).map (fun c => (c, stateFirmCount t c)))).length_eq]
    · exact List.mem_map.mpr ⟨(c, stateFirmCount t c),
        (List.mem_insertionSort countR).mpr (List.mem_map.mpr ⟨c, hc, rfl⟩), rfl⟩
    · obtain ⟨p, hp, heq⟩ := List.mem_map.mp hrow
      have hp2 : p ∈ (boolCols t).map (fun c => (c, stateFirmCount t c)) :=
        (List.mem_insertionSort countR).mp hp
      obtain ⟨c', hc', hpc⟩ := List.mem_map.mp hp2
      simp only [List.cons.injEq, Prod.mk.injEq, Cell.str.injEq, Cell.int.injEq,
        and_true, true_and] at heq
      obtain ⟨h1, _⟩ := heq
      have hp1 : p.1 = c' := by rw [← hpc]
      rw [← h1, hp1]
      exact hc'
    · refine List.Pairwise.map _ ?_
        (List.sorted_insertionSort countR ((boolCols t).map (fun c => (c, stateFirmCount t c))))
      intro a b hab
      simpa [summaryState, summaryCount, OutRow.getCell, lookupStr] using hab

/-- C7 (witness): a firm with two periods where the NY flag is true only in
the older period; the counts use only the most recent period, so NY counts
zero firms and the rows come out count-descending then state-ascending. -/
def c7pf : PreparedFrame :=
  ⟨["1E1", "REPORT_DATE", "2_CA", "2_NY"],
   [⟨some 100, some 20230101, none, none, [("2_CA", some "Y"), ("2_NY", some "Y")]⟩,
    ⟨some 100, some 20230401, none, none, [("2_CA", some "Y"), ("2_NY", some "N")]⟩]⟩

/-- The wide table the witness builds its counts from. -/
def c7wide : Table := build_notice_filings_wide c7pf

theorem notice_state_counts_spec_witness :
    ("CA" ∈ boolCols c7wide ↔
      [("State", Cell.str "CA"), ("Firm Count", Cell.int (stateFirmCount c7wide "CA"))] ∈
        (build_notice_state_counts c7wide).rows) ∧
    stateFirmCount c7wide "NY" = 0 ∧
    (build_notice_state_counts c7wide).rows =
      [[("State", Cell.str "CA"), ("Firm Count", Cell.int 1)],
       [("State", Cell.str "NY"), ("Firm Count", Cell.int 0)]] :=
  ⟨(notice_state_counts_spec c7wide (by decide)).2.1 "CA", by decide, by decide⟩
